import Mathlib

/-!
Shallow embedding of the text-recovery pipeline of `trialsage_agent.py`:
`decode_cid_codes`, `fix_reversed_text`, `clean_pdf_artifacts`, and their
composition (decode → fix → clean) as applied in `extract_text_from_file`.

Strings are modelled as `List Char` (wrapped into `String` at the interface).
Python's `str.replace` and the specific `re.sub` calls of the source are
embedded as left-to-right scanners; each scanner is structurally recursive on
a fuel argument initialised to the input length (every step consumes at least
one input character, so the fuel never runs out on the wrapped entry points).

Python's `\w` and `\s` are modelled for the ASCII range (all table tokens and
all regex literals in the source are ASCII).
-/

set_option maxRecDepth 10000
set_option maxHeartbeats 8000000

namespace TrialSage

/-- Python regex word character `\w` (ASCII range): letter, digit or underscore. -/
def isWordChar (c : Char) : Bool := c.isAlphanum || c == '_'

/-- Python regex whitespace `\s` (ASCII range). -/
def isPySpace (c : Char) : Bool :=
  c == ' ' || c == '\t' || c == '\n' || c == '\r' || c == '\x0b' || c == '\x0c'

/-- Python `str.replace`: replace all non-overlapping occurrences of `pat`
by `rep`, scanning left to right.  Fuel-based; `replaceList` supplies
`s.length` fuel, which suffices because every step consumes at least one
character of the input (all patterns used are nonempty). -/
def replaceFuel (pat rep : List Char) : Nat → List Char → List Char
  | 0, s => s
  | _ + 1, [] => []
  | fuel + 1, c :: rest =>
    if !pat.isEmpty && pat.isPrefixOf (c :: rest) then
      rep ++ replaceFuel pat rep fuel ((c :: rest).drop pat.length)
    else
      c :: replaceFuel pat rep fuel rest

def replaceList (pat rep s : List Char) : List Char :=
  replaceFuel pat rep s.length s

/-- Number of (non-overlapping, left-to-right) occurrences of `pat` that
`replaceFuel` replaces; mirrors `replaceFuel`. -/
def occFuel (pat : List Char) : Nat → List Char → Nat
  | 0, _ => 0
  | _ + 1, [] => 0
  | fuel + 1, c :: rest =>
    if !pat.isEmpty && pat.isPrefixOf (c :: rest) then
      1 + occFuel pat fuel ((c :: rest).drop pat.length)
    else
      occFuel pat fuel rest

def occCount (pat s : List Char) : Nat := occFuel pat s.length s

/-- The CID-code table of `decode_cid_codes`, exactly as the Python dict
literal lists it (including the duplicated key `(cid:59)`, first with value
`X` and later with value `;`). -/
def cid_raw : List (String × String) := [
  ("(cid:3)", " "),
  ("(cid:20)", "1"),
  ("(cid:21)", "2"),
  ("(cid:22)", "3"),
  ("(cid:23)", "4"),
  ("(cid:24)", "5"),
  ("(cid:25)", "6"),
  ("(cid:26)", "7"),
  ("(cid:27)", "8"),
  ("(cid:28)", "9"),
  ("(cid:19)", "0"),
  ("(cid:36)", "A"),
  ("(cid:37)", "B"),
  ("(cid:38)", "C"),
  ("(cid:39)", "D"),
  ("(cid:40)", "E"),
  ("(cid:41)", "F"),
  ("(cid:42)", "G"),
  ("(cid:43)", "H"),
  ("(cid:44)", "I"),
  ("(cid:45)", "J"),
  ("(cid:46)", "K"),
  ("(cid:47)", "L"),
  ("(cid:48)", "M"),
  ("(cid:49)", "N"),
  ("(cid:50)", "O"),
  ("(cid:51)", "P"),
  ("(cid:52)", "Q"),
  ("(cid:53)", "R"),
  ("(cid:54)", "S"),
  ("(cid:55)", "T"),
  ("(cid:56)", "U"),
  ("(cid:57)", "V"),
  ("(cid:58)", "W"),
  ("(cid:59)", "X"),
  ("(cid:60)", "Y"),
  ("(cid:61)", "Z"),
  ("(cid:68)", "a"),
  ("(cid:69)", "b"),
  ("(cid:70)", "c"),
  ("(cid:71)", "d"),
  ("(cid:72)", "e"),
  ("(cid:73)", "f"),
  ("(cid:74)", "g"),
  ("(cid:75)", "h"),
  ("(cid:76)", "i"),
  ("(cid:77)", "j"),
  ("(cid:78)", "k"),
  ("(cid:79)", "l"),
  ("(cid:80)", "m"),
  ("(cid:81)", "n"),
  ("(cid:82)", "o"),
  ("(cid:83)", "p"),
  ("(cid:84)", "q"),
  ("(cid:85)", "r"),
  ("(cid:86)", "s"),
  ("(cid:87)", "t"),
  ("(cid:88)", "u"),
  ("(cid:89)", "v"),
  ("(cid:90)", "w"),
  ("(cid:91)", "x"),
  ("(cid:92)", "y"),
  ("(cid:93)", "z"),
  ("(cid:177)", "-"),
  ("(cid:18)", "/"),
  ("(cid:17)", "."),
  ("(cid:29)", ":"),
  ("(cid:15)", ","),
  ("(cid:11)", "("),
  ("(cid:12)", ")"),
  ("(cid:138)", "®"),
  ("(cid:16)", "-"),
  ("(cid:14)", "."),
  ("(cid:13)", " "),
  ("(cid:59)", ";"),
  ("(cid:33)", "!"),
  ("(cid:63)", "?"),
  ("(cid:182)", "\x27"),
  ("(cid:147)", "±"),
  ("(cid:30)", ";"),
  ("(cid:120)", "•"),
  ("(cid:8)", "%"),
  ("(cid:31)", "≤"),
  ("(cid:32)", " "),
  ("(cid:9)", "\t"),
  ("(cid:179)", "\x22"),
  ("(cid:180)", "\x22"),
  ("(cid:119)", "ï"),
  ("(cid:181)", "μ"),
  ("(cid:34)", "?"),
  ("(cid:66)", "_")]

/-- Python dict insertion with overwrite: a repeated key keeps its first
position but takes the latest value. -/
def upsert (m : List (String × String)) (k v : String) : List (String × String) :=
  match m with
  | [] => [(k, v)]
  | (k', v') :: rest => if k' = k then (k', v) :: rest else (k', v') :: upsert rest k v

/-- The effective dict `cid_mappings` built from the literal (Python dict
semantics applied to `cid_raw`); iteration order is insertion order. -/
def cid_mappings : List (String × String) :=
  cid_raw.foldl (fun m kv => upsert m kv.1 kv.2) []

/-- Function `decode_cid_codes`: for each table entry in iteration order, a full
`str.replace` pass over the text.  `decodeList` is the pass at the
character-list level. -/
def decodeList (l : List Char) : List Char :=
  cid_mappings.foldl (fun t kv => replaceList kv.1.data kv.2.data t) l

def decode_cid_codes (s : String) : String := ⟨decodeList s.data⟩

/-- Case-insensitive (ASCII lowercasing, `re.IGNORECASE`) prefix match. -/
def ciPrefix : List Char → List Char → Bool
  | [], _ => true
  | _ :: _, [] => false
  | k :: ks, c :: cs => (k.toLower == c.toLower) && ciPrefix ks cs

/-- Boundary `\b` after a match made of word characters: next char absent or non-word. -/
def boundaryAfterOk : List Char → Bool
  | [] => true
  | c :: _ => !isWordChar c

/-- One `re.sub(r'\b<key>\b', rep, text, flags=re.IGNORECASE)` pass for a
`key` consisting of word characters: left-to-right scan replacing each
non-overlapping whole-word case-insensitive occurrence of `key` by `rep`
(the table's canonical casing).  `prevw` records whether the character just
before the scan position in the original text is a word character (`\b`
before the match demands it is not). -/
def subWordFuel (key rep : List Char) : Nat → Bool → List Char → List Char
  | 0, _, s => s
  | _ + 1, _, [] => []
  | fuel + 1, prevw, c :: rest =>
    if !prevw && !key.isEmpty && ciPrefix key (c :: rest)
        && boundaryAfterOk ((c :: rest).drop key.length) then
      rep ++ subWordFuel key rep fuel true ((c :: rest).drop key.length)
    else
      c :: subWordFuel key rep fuel (isWordChar c) rest

def subWord (key rep l : List Char) : List Char := subWordFuel key rep l.length false l

/-- Number of whole-word matches `subWordFuel` replaces; mirrors it. -/
def subWordCountFuel (key : List Char) : Nat → Bool → List Char → Nat
  | 0, _, _ => 0
  | _ + 1, _, [] => 0
  | fuel + 1, prevw, c :: rest =>
    if !prevw && !key.isEmpty && ciPrefix key (c :: rest)
        && boundaryAfterOk ((c :: rest).drop key.length) then
      1 + subWordCountFuel key fuel true ((c :: rest).drop key.length)
    else
      subWordCountFuel key fuel (isWordChar c) rest

def subWordCount (key l : List Char) : Nat := subWordCountFuel key l.length false l

/-- The reversed-word table of `fix_reversed_text`, in the source's
insertion order. -/
def reversed_patterns : List (String × String) := [
  ("tuohsaW", "Washout"),
  ("doireP", "Period"),
  ("skeew", "weeks"),
  ("gnineercS", "Screening"),
  ("tisiV", "Visit"),
  ("gniwollof", "following"),
  ("gnineercs", "screening"),
  ("tnesnoC", "Consent"),
  ("demrofnI", "Informed"),
  ("gnitseT", "Testing"),
  ("ycnangerP", "Pregnancy"),
  ("kcehC", "Check"),
  ("airetirC", "Criteria"),
  ("ytilibigilE", "Eligibility"),
  ("tneitap", "patient"),
  ("syaD", "Days"),
  ("motpmys", "symptom"),
  ("gnitroper", "reporting"),
  ("ylhtnom", "monthly"),
  ("yliaD", "Daily"),
  ("lawardhtiw", "withdrawal"),
  ("ylrae", "early"),
  ("enirU", "Urine"),
  ("ecnO", "Once"),
  ("reviL", "Liver"),
  ("weiveR", "Review"),
  ("lacisyhP", "Physical"),
  ("thgieW", "Weight"),
  ("thgieH", "Height"),
  ("sutats", "status"),
  ("nacs", "scan"),
  ("sisongaid", "diagnosis"),
  ("eugolana", "analogue"),
  ("nitatsotamos", "somatostatin"),
  ("smotpmys", "symptoms"),
  ("tnemtaert", "treatment"),
  ("sesylana", "analyses"),
  ("eerf", "free"),
  ("lleC", "Cell"),
  ("elpmas", "sample"),
  ("doolb", "blood"),
  ("gniliforp", "profiling"),
  ("cimoneg", "genomic"),
  ("eliforp", "profile"),
  ("ruoh", "hour"),
  ("ninargomorhC", "Chromogranin"),
  ("ninikorueN", "Neurokinin"),
  ("seriannoitseuQ", "Questionnaires"),
  ("tcejbuS", "Subject"),
  ("noitartsinimdA", "Administration"),
  ("noitacidem", "medication"),
  ("tnatimocnoC", "Concomitant"),
  ("lacigrus", "surgical"),
  ("seipareht", "therapies"),
  ("serudecorp", "procedures"),
  ("gurd", "drug"),
  ("tnevE", "Event"),
  ("esrevdA", "Adverse"),
  ("noitelpmoC", "Completion")]

/-- Function `fix_reversed_text` generalized to an explicit table (the source iterates the
table entries in order, one `re.sub` pass per entry). -/
def fixWithTable (tbl : List (String × String)) (l : List Char) : List Char :=
  tbl.foldl (fun t kv => subWord kv.1.data kv.2.data t) l

def fix_reversed_text (s : String) : String :=
  ⟨fixWithTable reversed_patterns s.data⟩

/-- Longest prefix of `r` ending in a newline (empty if `r` has no newline).
Used for the greedy-with-backtracking tail `\s*\n` (resp. the greedy
`\n\s*\n\s*\n` span): the regex consumes whitespace up to the last newline
of the whitespace run. -/
def dropAfterLastNl (r : List Char) : List Char :=
  (r.reverse.dropWhile (fun c => !(c == '\n'))).reverse

/-- Rule 1, `re.sub(r'\bPPD\s*\n', '', text)`: a whole-word-started literal `PPD`
followed by a whitespace run containing a newline; the match extends to the
last newline of that run and is deleted.  `prevw`: previous original
character is a word character. -/
def rule1Fuel : Nat → Bool → List Char → List Char
  | 0, _, s => s
  | _ + 1, _, [] => []
  | fuel + 1, prevw, c :: rest =>
    let s := c :: rest
    let ws := dropAfterLastNl ((s.drop 3).takeWhile isPySpace)
    if !prevw && "PPD".data.isPrefixOf s && !ws.isEmpty then
      rule1Fuel fuel false (s.drop (3 + ws.length))
    else
      c :: rule1Fuel fuel (isWordChar c) rest

/-- Rule 2, `re.sub(r'\bPPD\s+PPD\s*', '', text)`: `PPD`, at least one whitespace,
`PPD`, then greedily any whitespace; the whole match is deleted.  (No word
boundary after the second `PPD`.) -/
def rule2Fuel : Nat → Bool → List Char → List Char
  | 0, _, s => s
  | _ + 1, _, [] => []
  | fuel + 1, prevw, c :: rest =>
    let s := c :: rest
    let after := s.drop 3
    let ws1 := after.takeWhile isPySpace
    if !prevw && "PPD".data.isPrefixOf s && !ws1.isEmpty
        && "PPD".data.isPrefixOf (after.drop ws1.length) then
      let after2 := (after.drop ws1.length).drop 3
      let ws2 := after2.takeWhile isPySpace
      rule2Fuel fuel ws2.isEmpty (after2.drop ws2.length)
    else
      c :: rule2Fuel fuel (isWordChar c) rest

/-- Rule 3, `re.sub(r'(\s)PPD(\s)', r'\1\2', text)`: a whitespace character, `PPD`,
a whitespace character; the two whitespace characters are kept, `PPD` is
deleted.  The match consumes both whitespace characters. -/
def rule3Fuel : Nat → List Char → List Char
  | 0, s => s
  | _ + 1, [] => []
  | fuel + 1, c :: rest =>
    match rest.drop 3 with
    | d :: rest2 =>
      if isPySpace c && "PPD".data.isPrefixOf rest && isPySpace d then
        c :: d :: rule3Fuel fuel rest2
      else
        c :: rule3Fuel fuel rest
    | [] => c :: rule3Fuel fuel rest

/-- Attempt of `\b(\d+)\s+ot\s+(\d+)\b` at the head of `s` (the leading
`\b` is checked by the caller): maximal digit run, maximal whitespace run,
literal `ot`, maximal whitespace run, maximal digit run, then a trailing
boundary.  Returns the two digit groups and the remainder. -/
def matchOt (s : List Char) : Option (List Char × List Char × List Char) :=
  let d1 := s.takeWhile Char.isDigit
  if d1.isEmpty then none else
  let r1 := s.drop d1.length
  let ws1 := r1.takeWhile isPySpace
  if ws1.isEmpty then none else
  let r2 := r1.drop ws1.length
  if "ot".data.isPrefixOf r2 then
    let r3 := r2.drop 2
    let ws2 := r3.takeWhile isPySpace
    if ws2.isEmpty then none else
    let r4 := r3.drop ws2.length
    let d2 := r4.takeWhile Char.isDigit
    if d2.isEmpty then none else
    let r5 := r4.drop d2.length
    if boundaryAfterOk r5 then some (d1, d2, r5) else none
  else none

/-- Rule 4, `re.sub(r'\b(\d+)\s+ot\s+(\d+)\b', r'\1 to \2', text)`. -/
def rule4Fuel : Nat → Bool → List Char → List Char
  | 0, _, s => s
  | _ + 1, _, [] => []
  | fuel + 1, prevw, c :: rest =>
    if prevw then
      c :: rule4Fuel fuel (isWordChar c) rest
    else
      match matchOt (c :: rest) with
      | some (d1, d2, r5) =>
        d1 ++ (' ' :: 't' :: 'o' :: ' ' :: (d2 ++ rule4Fuel fuel true r5))
      | none => c :: rule4Fuel fuel (isWordChar c) rest

/-- Rule 5, `re.sub(r'\n\s*\n\s*\n', '\n\n', text)`: at a newline whose maximal
whitespace run contains at least three newlines, the greedy match spans to
the last newline of the run and is replaced by two newlines. -/
def rule5Fuel : Nat → List Char → List Char
  | 0, s => s
  | _ + 1, [] => []
  | fuel + 1, c :: rest =>
    let run := (c :: rest).takeWhile isPySpace
    if c == '\n' && 3 ≤ run.count '\n' then
      '\n' :: '\n' :: rule5Fuel fuel ((c :: rest).drop (dropAfterLastNl run).length)
    else
      c :: rule5Fuel fuel rest

/-- Rule 6, `re.sub(r' {3,}', '  ', text)`: a maximal run of three or more spaces
becomes exactly two spaces. -/
def rule6Fuel : Nat → List Char → List Char
  | 0, s => s
  | _ + 1, [] => []
  | fuel + 1, c :: rest =>
    let run := (c :: rest).takeWhile (fun x => x == ' ')
    if c == ' ' && 3 ≤ run.length then
      ' ' :: ' ' :: rule6Fuel fuel ((c :: rest).drop run.length)
    else
      c :: rule6Fuel fuel rest

def rule1 (l : List Char) : List Char := rule1Fuel l.length false l
def rule2 (l : List Char) : List Char := rule2Fuel l.length false l
def rule3 (l : List Char) : List Char := rule3Fuel l.length l
def rule4 (l : List Char) : List Char := rule4Fuel l.length false l
def rule5 (l : List Char) : List Char := rule5Fuel l.length l
def rule6 (l : List Char) : List Char := rule6Fuel l.length l

/-- Function `clean_pdf_artifacts`: the six `re.sub` passes in source order. -/
def clean_pdf_artifacts (s : String) : String :=
  ⟨rule6 (rule5 (rule4 (rule3 (rule2 (rule1 s.data)))))⟩

/-- The whitespace-normalization tail of `clean_pdf_artifacts` (its last
two rules: blank-line collapsing and space-run collapsing). -/
def collapse_whitespace (s : String) : String := ⟨rule6 (rule5 s.data)⟩

/-- The full three-stage pipeline in the order used by
`extract_text_from_file` and the fix-text button: decode CID codes, then
fix reversed text, then clean artifacts. -/
def normalize (s : String) : String :=
  clean_pdf_artifacts (fix_reversed_text (decode_cid_codes s))

/-- Number of matches of rule 1 (`\bPPD\s*\n`); mirrors `rule1Fuel`. -/
def rule1CountFuel : Nat → Bool → List Char → Nat
  | 0, _, _ => 0
  | _ + 1, _, [] => 0
  | fuel + 1, prevw, c :: rest =>
    let s := c :: rest
    let ws := dropAfterLastNl ((s.drop 3).takeWhile isPySpace)
    if !prevw && "PPD".data.isPrefixOf s && !ws.isEmpty then
      1 + rule1CountFuel fuel false (s.drop (3 + ws.length))
    else
      rule1CountFuel fuel (isWordChar c) rest

/-- Number of matches of rule 2 (`\bPPD\s+PPD\s*`); mirrors `rule2Fuel`. -/
def rule2CountFuel : Nat → Bool → List Char → Nat
  | 0, _, _ => 0
  | _ + 1, _, [] => 0
  | fuel + 1, prevw, c :: rest =>
    let s := c :: rest
    let after := s.drop 3
    let ws1 := after.takeWhile isPySpace
    if !prevw && "PPD".data.isPrefixOf s && !ws1.isEmpty
        && "PPD".data.isPrefixOf (after.drop ws1.length) then
      let after2 := (after.drop ws1.length).drop 3
      let ws2 := after2.takeWhile isPySpace
      1 + rule2CountFuel fuel ws2.isEmpty (after2.drop ws2.length)
    else
      rule2CountFuel fuel (isWordChar c) rest

/-- Number of matches of rule 3 (`(\s)PPD(\s)`); mirrors `rule3Fuel`. -/
def rule3CountFuel : Nat → List Char → Nat
  | 0, _ => 0
  | _ + 1, [] => 0
  | fuel + 1, c :: rest =>
    match rest.drop 3 with
    | d :: rest2 =>
      if isPySpace c && "PPD".data.isPrefixOf rest && isPySpace d then
        1 + rule3CountFuel fuel rest2
      else
        rule3CountFuel fuel rest
    | [] => rule3CountFuel fuel rest

/-- Number of matches of rule 4 (`\b(\d+)\s+ot\s+(\d+)\b`); mirrors `rule4Fuel`. -/
def rule4CountFuel : Nat → Bool → List Char → Nat
  | 0, _, _ => 0
  | _ + 1, _, [] => 0
  | fuel + 1, prevw, c :: rest =>
    if prevw then
      rule4CountFuel fuel (isWordChar c) rest
    else
      match matchOt (c :: rest) with
      | some (_, _, r5) => 1 + rule4CountFuel fuel true r5
      | none => rule4CountFuel fuel (isWordChar c) rest

/-- Number of matches of rule 5 (`\n\s*\n\s*\n`); mirrors `rule5Fuel`. -/
def rule5CountFuel : Nat → List Char → Nat
  | 0, _ => 0
  | _ + 1, [] => 0
  | fuel + 1, c :: rest =>
    let run := (c :: rest).takeWhile isPySpace
    if c == '\n' && 3 ≤ run.count '\n' then
      1 + rule5CountFuel fuel ((c :: rest).drop (dropAfterLastNl run).length)
    else
      rule5CountFuel fuel rest

/-- Number of matches of rule 6 (`' {3,}'`); mirrors `rule6Fuel`. -/
def rule6CountFuel : Nat → List Char → Nat
  | 0, _ => 0
  | _ + 1, [] => 0
  | fuel + 1, c :: rest =>
    let run := (c :: rest).takeWhile (fun x => x == ' ')
    if c == ' ' && 3 ≤ run.length then
      1 + rule6CountFuel fuel ((c :: rest).drop run.length)
    else
      rule6CountFuel fuel rest

def rule1Count (l : List Char) : Nat := rule1CountFuel l.length false l
def rule2Count (l : List Char) : Nat := rule2CountFuel l.length false l
def rule3Count (l : List Char) : Nat := rule3CountFuel l.length l
def rule4Count (l : List Char) : Nat := rule4CountFuel l.length false l
def rule5Count (l : List Char) : Nat := rule5CountFuel l.length l
def rule6Count (l : List Char) : Nat := rule6CountFuel l.length l

/-- Modelled from the spec: the diagnostics interface ("counts of tokens
decoded/corrected/removed") is described in the spec but the source pipeline
functions return only the text (the UI separately counts remaining CID
patterns).  `decodedCount` is the number of replacements `decode_cid_codes`
performs. -/
def decodedCount (s : String) : Nat :=
  (cid_mappings.foldl
    (fun p kv => (replaceList kv.1.data kv.2.data p.1, p.2 + occCount kv.1.data p.1))
    (s.data, 0)).2

/-- Modelled from the spec: number of word replacements `fix_reversed_text`
performs (see `decodedCount`). -/
def correctedCount (s : String) : Nat :=
  (reversed_patterns.foldl
    (fun p kv => (subWord kv.1.data kv.2.data p.1, p.2 + subWordCount kv.1.data p.1))
    (s.data, 0)).2

/-- Modelled from the spec: number of artifact removals `clean_pdf_artifacts`
performs (matches of its three PPD rules, see `decodedCount`). -/
def removedCount (s : String) : Nat :=
  rule1Count s.data + rule2Count (rule1 s.data) + rule3Count (rule2 (rule1 s.data))

/-! ### Scanner lemmas: a pass with zero matches is the identity -/

theorem replaceFuel_id (pat rep : List Char) :
    ∀ (fuel : Nat) (s : List Char), occFuel pat fuel s = 0 → replaceFuel pat rep fuel s = s := by
  intro fuel
  induction fuel with
  | zero => intro s _; rfl
  | succ n ih =>
    intro s h
    cases s with
    | nil => rfl
    | cons c rest =>
      by_cases hc : (!pat.isEmpty && pat.isPrefixOf (c :: rest)) = true
      · exfalso
        simp only [occFuel, hc, if_true] at h
        omega
      · simp only [occFuel, hc, if_false] at h
        simp only [replaceFuel, hc, if_false]
        exact congrArg (c :: ·) (ih rest h)

theorem subWordFuel_id (key rep : List Char) :
    ∀ (fuel : Nat) (prevw : Bool) (s : List Char),
      subWordCountFuel key fuel prevw s = 0 → subWordFuel key rep fuel prevw s = s := by
  intro fuel
  induction fuel with
  | zero => intro prevw s _; rfl
  | succ n ih =>
    intro prevw s h
    cases s with
    | nil => rfl
    | cons c rest =>
      by_cases hc : (!prevw && !key.isEmpty && ciPrefix key (c :: rest)
          && boundaryAfterOk ((c :: rest).drop key.length)) = true
      · exfalso
        simp only [subWordCountFuel, hc, if_true] at h
        omega
      · simp only [subWordCountFuel, hc, if_false] at h
        simp only [subWordFuel, hc, if_false]
        exact congrArg (c :: ·) (ih (isWordChar c) rest h)

theorem rule1Fuel_id :
    ∀ (fuel : Nat) (prevw : Bool) (s : List Char),
      rule1CountFuel fuel prevw s = 0 → rule1Fuel fuel prevw s = s := by
  intro fuel
  induction fuel with
  | zero => intro prevw s _; rfl
  | succ n ih =>
    intro prevw s h
    cases s with
    | nil => rfl
    | cons c rest =>
      by_cases hc : (!prevw && "PPD".data.isPrefixOf (c :: rest)
          && !(dropAfterLastNl (((c :: rest).drop 3).takeWhile isPySpace)).isEmpty) = true
      · exfalso
        simp only [rule1CountFuel, hc, if_true] at h
        omega
      · simp only [rule1CountFuel, hc, if_false] at h
        simp only [rule1Fuel, hc, if_false]
        exact congrArg (c :: ·) (ih (isWordChar c) rest h)

theorem rule2Fuel_id :
    ∀ (fuel : Nat) (prevw : Bool) (s : List Char),
      rule2CountFuel fuel prevw s = 0 → rule2Fuel fuel prevw s = s := by
  intro fuel
  induction fuel with
  | zero => intro prevw s _; rfl
  | succ n ih =>
    intro prevw s h
    cases s with
    | nil => rfl
    | cons c rest =>
      by_cases hc : (!prevw && "PPD".data.isPrefixOf (c :: rest)
          && !(((c :: rest).drop 3).takeWhile isPySpace).isEmpty
          && "PPD".data.isPrefixOf (((c :: rest).drop 3).drop
              (((c :: rest).drop 3).takeWhile isPySpace).length)) = true
      · exfalso
        simp only [rule2CountFuel, hc, if_true] at h
        omega
      · simp only [rule2CountFuel, hc, if_false] at h
        simp only [rule2Fuel, hc, if_false]
        exact congrArg (c :: ·) (ih (isWordChar c) rest h)

theorem rule3Fuel_id :
    ∀ (fuel : Nat) (s : List Char),
      rule3CountFuel fuel s = 0 → rule3Fuel fuel s = s := by
  intro fuel
  induction fuel with
  | zero => intro s _; rfl
  | succ n ih =>
    intro s h
    cases s with
    | nil => rfl
    | cons c rest =>
      cases hd : rest.drop 3 with
      | nil =>
        simp only [rule3CountFuel, hd] at h
        simp only [rule3Fuel, hd]
        exact congrArg (c :: ·) (ih rest h)
      | cons d rest2 =>
        by_cases hc : (isPySpace c && "PPD".data.isPrefixOf rest && isPySpace d) = true
        · exfalso
          simp only [rule3CountFuel, hd, hc, if_true] at h
          omega
        · simp only [rule3CountFuel, hd, hc, if_false] at h
          simp only [rule3Fuel, hd, hc, if_false]
          exact congrArg (c :: ·) (ih rest h)

theorem rule4Fuel_id :
    ∀ (fuel : Nat) (prevw : Bool) (s : List Char),
      rule4CountFuel fuel prevw s = 0 → rule4Fuel fuel prevw s = s := by
  intro fuel
  induction fuel with
  | zero => intro prevw s _; rfl
  | succ n ih =>
    intro prevw s h
    cases s with
    | nil => rfl
    | cons c rest =>
      cases hp : prevw with
      | true =>
        simp only [rule4CountFuel, hp] at h
        simp only [rule4Fuel]
        exact congrArg (c :: ·) (ih (isWordChar c) rest h)
      | false =>
        cases hm : matchOt (c :: rest) with
        | some t =>
          obtain ⟨d1, d2, r5⟩ := t
          simp [rule4CountFuel, hm, hp] at h
        | none =>
          simp only [rule4CountFuel, hp, hm] at h
          simp only [rule4Fuel, hp, hm]
          exact congrArg (c :: ·) (ih (isWordChar c) rest h)

theorem rule5Fuel_id :
    ∀ (fuel : Nat) (s : List Char),
      rule5CountFuel fuel s = 0 → rule5Fuel fuel s = s := by
  intro fuel
  induction fuel with
  | zero => intro s _; rfl
  | succ n ih =>
    intro s h
    cases s with
    | nil => rfl
    | cons c rest =>
      by_cases hc : (c == '\n' && 3 ≤ ((c :: rest).takeWhile isPySpace).count '\n') = true
      · exfalso
        simp only [rule5CountFuel, hc, if_true] at h
        omega
      · simp only [rule5CountFuel, hc, if_false] at h
        simp only [rule5Fuel, hc, if_false]
        exact congrArg (c :: ·) (ih rest h)

theorem rule6Fuel_id :
    ∀ (fuel : Nat) (s : List Char),
      rule6CountFuel fuel s = 0 → rule6Fuel fuel s = s := by
  intro fuel
  induction fuel with
  | zero => intro s _; rfl
  | succ n ih =>
    intro s h
    cases s with
    | nil => rfl
    | cons c rest =>
      by_cases hc : (c == ' ' && 3 ≤ ((c :: rest).takeWhile (fun x => x == ' ')).length) = true
      · exfalso
        simp only [rule6CountFuel, hc, if_true] at h
        omega
      · simp only [rule6CountFuel, hc, if_false] at h
        simp only [rule6Fuel, hc, if_false]
        exact congrArg (c :: ·) (ih rest h)

/-! ### Length and character-count bounds for replace passes -/

theorem replaceFuel_length_le (pat rep : List Char) (hlen : rep.length ≤ pat.length) :
    ∀ (fuel : Nat) (s : List Char), (replaceFuel pat rep fuel s).length ≤ s.length := by
  intro fuel
  induction fuel with
  | zero => intro s; exact Nat.le_refl _
  | succ n ih =>
    intro s
    cases s with
    | nil => exact Nat.le_refl _
    | cons c rest =>
      by_cases hc : (!pat.isEmpty && pat.isPrefixOf (c :: rest)) = true
      · have hpre : pat <+: (c :: rest) :=
          List.isPrefixOf_iff_prefix.mp (Bool.and_elim_right hc)
        have hple : pat.length ≤ (c :: rest).length := List.IsPrefix.length_le hpre
        have h2 := ih ((c :: rest).drop pat.length)
        have h3 : ((c :: rest).drop pat.length).length = (c :: rest).length - pat.length :=
          List.length_drop _ _
        simp only [replaceFuel, hc, if_true, List.length_append]
        omega
      · simp only [replaceFuel, hc, if_false, List.length_cons]
        exact Nat.succ_le_succ (ih rest)

theorem replaceFuel_count_le (pat rep : List Char) (a : Char) (ha : rep.count a = 0) :
    ∀ (fuel : Nat) (s : List Char), (replaceFuel pat rep fuel s).count a ≤ s.count a := by
  intro fuel
  induction fuel with
  | zero => intro s; exact Nat.le_refl _
  | succ n ih =>
    intro s
    cases s with
    | nil => exact Nat.le_refl _
    | cons c rest =>
      by_cases hc : (!pat.isEmpty && pat.isPrefixOf (c :: rest)) = true
      · have h2 := ih ((c :: rest).drop pat.length)
        have h3 : ((c :: rest).drop pat.length).count a ≤ (c :: rest).count a :=
          List.Sublist.count_le (List.drop_sublist _ _) a
        simp only [replaceFuel, hc, if_true, List.count_append, ha]
        omega
      · simp only [replaceFuel]
        rw [if_neg hc]
        simp only [List.count_cons]
        exact Nat.add_le_add_right (ih rest) _

/-! ### Fold lemmas for the per-table-entry passes -/

theorem foldl_replace_id (l : List (String × String)) :
    ∀ s : List Char, (∀ kv ∈ l, occCount kv.1.data s = 0) →
      l.foldl (fun t kv => replaceList kv.1.data kv.2.data t) s = s := by
  induction l with
  | nil => intro s _; rfl
  | cons kv tl ih =>
    intro s h
    have h1 : replaceList kv.1.data kv.2.data s = s :=
      replaceFuel_id _ _ _ _ (h kv (List.mem_cons_self _ _))
    simp only [List.foldl_cons, h1]
    exact ih s (fun kv' hkv' => h kv' (List.mem_cons_of_mem _ hkv'))

theorem foldl_replace_length_le (l : List (String × String)) :
    ∀ s : List Char, (∀ kv ∈ l, kv.2.data.length ≤ kv.1.data.length) →
      (l.foldl (fun t kv => replaceList kv.1.data kv.2.data t) s).length ≤ s.length := by
  induction l with
  | nil => intro s _; exact Nat.le_refl _
  | cons kv tl ih =>
    intro s h
    simp only [List.foldl_cons]
    refine Nat.le_trans (ih _ (fun kv' hkv' => h kv' (List.mem_cons_of_mem _ hkv'))) ?_
    exact replaceFuel_length_le _ _ (h kv (List.mem_cons_self _ _)) _ _

theorem foldl_replace_count_le (l : List (String × String)) (a : Char) :
    ∀ s : List Char, (∀ kv ∈ l, kv.2.data.count a = 0) →
      (l.foldl (fun t kv => replaceList kv.1.data kv.2.data t) s).count a ≤ s.count a := by
  induction l with
  | nil => intro s _; exact Nat.le_refl _
  | cons kv tl ih =>
    intro s h
    simp only [List.foldl_cons]
    refine Nat.le_trans (ih _ (fun kv' hkv' => h kv' (List.mem_cons_of_mem _ hkv'))) ?_
    exact replaceFuel_count_le _ _ _ (h kv (List.mem_cons_self _ _)) _ _

theorem foldl_replace_pair (l : List (String × String)) :
    ∀ (s : List Char) (n : Nat), (∀ kv ∈ l, occCount kv.1.data s = 0) →
      l.foldl (fun p kv => (replaceList kv.1.data kv.2.data p.1, p.2 + occCount kv.1.data p.1))
        (s, n) = (s, n) := by
  induction l with
  | nil => intro s n _; rfl
  | cons kv tl ih =>
    intro s n h
    have h0 := h kv (List.mem_cons_self _ _)
    have h1 : replaceList kv.1.data kv.2.data s = s := replaceFuel_id _ _ _ _ h0
    simp only [List.foldl_cons, h1, h0, Nat.add_zero]
    exact ih s n (fun kv' hkv' => h kv' (List.mem_cons_of_mem _ hkv'))

theorem fixWithTable_id (tbl : List (String × String)) :
    ∀ s : List Char, (∀ kv ∈ tbl, subWordCount kv.1.data s = 0) →
      fixWithTable tbl s = s := by
  induction tbl with
  | nil => intro s _; rfl
  | cons kv tl ih =>
    intro s h
    have h1 : subWord kv.1.data kv.2.data s = s :=
      subWordFuel_id _ _ _ _ _ (h kv (List.mem_cons_self _ _))
    simp only [fixWithTable, List.foldl_cons, h1]
    exact ih s (fun kv' hkv' => h kv' (List.mem_cons_of_mem _ hkv'))

theorem foldl_subWord_pair (tbl : List (String × String)) :
    ∀ (s : List Char) (n : Nat), (∀ kv ∈ tbl, subWordCount kv.1.data s = 0) →
      tbl.foldl (fun p kv => (subWord kv.1.data kv.2.data p.1, p.2 + subWordCount kv.1.data p.1))
        (s, n) = (s, n) := by
  induction tbl with
  | nil => intro s n _; rfl
  | cons kv tl ih =>
    intro s n h
    have h0 := h kv (List.mem_cons_self _ _)
    have h1 : subWord kv.1.data kv.2.data s = s := subWordFuel_id _ _ _ _ _ h0
    simp only [List.foldl_cons, h1, h0, Nat.add_zero]
    exact ih s n (fun kv' hkv' => h kv' (List.mem_cons_of_mem _ hkv'))

/-! ### Stage-level identity results -/

theorem decode_id_of_no_token (s : String)
    (h : ∀ kv ∈ cid_mappings, occCount kv.1.data s.data = 0) :
    decode_cid_codes s = s := by
  unfold decode_cid_codes decodeList
  rw [foldl_replace_id cid_mappings s.data h]

theorem fix_id_of_no_match (s : String)
    (h : ∀ kv ∈ reversed_patterns, subWordCount kv.1.data s.data = 0) :
    fix_reversed_text s = s := by
  unfold fix_reversed_text
  rw [fixWithTable_id reversed_patterns s.data h]

theorem clean_eq_collapse_of_no_artifacts (s : String)
    (h1 : rule1Count s.data = 0) (h2 : rule2Count s.data = 0)
    (h3 : rule3Count s.data = 0) (h4 : rule4Count s.data = 0) :
    clean_pdf_artifacts s = collapse_whitespace s := by
  have e1 : rule1 s.data = s.data := rule1Fuel_id _ _ _ h1
  have e2 : rule2 s.data = s.data := rule2Fuel_id _ _ _ h2
  have e3 : rule3 s.data = s.data := rule3Fuel_id _ _ h3
  have e4 : rule4 s.data = s.data := rule4Fuel_id _ _ _ h4
  unfold clean_pdf_artifacts collapse_whitespace
  rw [e1, e2, e3, e4]

theorem clean_id_of_no_matches (s : String)
    (h1 : rule1Count s.data = 0) (h2 : rule2Count s.data = 0)
    (h3 : rule3Count s.data = 0) (h4 : rule4Count s.data = 0)
    (h5 : rule5Count s.data = 0) (h6 : rule6Count s.data = 0) :
    clean_pdf_artifacts s = s := by
  have e1 : rule1 s.data = s.data := rule1Fuel_id _ _ _ h1
  have e2 : rule2 s.data = s.data := rule2Fuel_id _ _ _ h2
  have e3 : rule3 s.data = s.data := rule3Fuel_id _ _ h3
  have e4 : rule4 s.data = s.data := rule4Fuel_id _ _ _ h4
  have e5 : rule5 s.data = s.data := rule5Fuel_id _ _ h5
  have e6 : rule6 s.data = s.data := rule6Fuel_id _ _ h6
  unfold clean_pdf_artifacts
  rw [e1, e2, e3, e4, e5, e6]

/-! ### Rule identities on strings lacking the trigger characters -/

theorem ppdPrefix_false (c : Char) (rest : List Char) (hc : c ≠ 'P') :
    "PPD".data.isPrefixOf (c :: rest) = false := by
  have h1 : "PPD".data = 'P' :: 'P' :: 'D' :: [] := rfl
  rw [h1]
  simp [List.isPrefixOf, beq_false_of_ne (Ne.symm hc)]

theorem rule1Fuel_id_no_P :
    ∀ (fuel : Nat) (prevw : Bool) (l : List Char), 'P' ∉ l → rule1Fuel fuel prevw l = l := by
  intro fuel
  induction fuel with
  | zero => intro _ l _; rfl
  | succ n ih =>
    intro prevw l hP
    cases l with
    | nil => rfl
    | cons c rest =>
      have hc : c ≠ 'P' := fun h => hP (by rw [← h]; exact List.mem_cons_self c rest)
      have hrest : 'P' ∉ rest := fun h => hP (List.mem_cons_of_mem c h)
      have hcnot : ¬ ((!prevw && "PPD".data.isPrefixOf (c :: rest)
          && !(dropAfterLastNl (((c :: rest).drop 3).takeWhile isPySpace)).isEmpty) = true) := by
        intro h
        rw [ppdPrefix_false c rest hc] at h
        simp at h
      simp only [rule1Fuel, hcnot, if_false]
      exact congrArg (c :: ·) (ih (isWordChar c) rest hrest)

theorem rule2Fuel_id_no_P :
    ∀ (fuel : Nat) (prevw : Bool) (l : List Char), 'P' ∉ l → rule2Fuel fuel prevw l = l := by
  intro fuel
  induction fuel with
  | zero => intro _ l _; rfl
  | succ n ih =>
    intro prevw l hP
    cases l with
    | nil => rfl
    | cons c rest =>
      have hc : c ≠ 'P' := fun h => hP (by rw [← h]; exact List.mem_cons_self c rest)
      have hrest : 'P' ∉ rest := fun h => hP (List.mem_cons_of_mem c h)
      have hcnot : ¬ ((!prevw && "PPD".data.isPrefixOf (c :: rest)
          && !(((c :: rest).drop 3).takeWhile isPySpace).isEmpty
          && "PPD".data.isPrefixOf (((c :: rest).drop 3).drop
              (((c :: rest).drop 3).takeWhile isPySpace).length)) = true) := by
        intro h
        rw [ppdPrefix_false c rest hc] at h
        simp at h
      simp only [rule2Fuel, hcnot, if_false]
      exact congrArg (c :: ·) (ih (isWordChar c) rest hrest)

theorem rule3Fuel_id_no_P :
    ∀ (fuel : Nat) (l : List Char), 'P' ∉ l → rule3Fuel fuel l = l := by
  intro fuel
  induction fuel with
  | zero => intro l _; rfl
  | succ n ih =>
    intro l hP
    cases l with
    | nil => rfl
    | cons c rest =>
      have hrest : 'P' ∉ rest := fun h => hP (List.mem_cons_of_mem c h)
      cases hd : rest.drop 3 with
      | nil =>
        simp only [rule3Fuel, hd]
        exact congrArg (c :: ·) (ih rest hrest)
      | cons d rest2 =>
        have hcnot : ¬ ((isPySpace c && "PPD".data.isPrefixOf rest && isPySpace d) = true) := by
          intro h
          cases rest with
          | nil => simp [List.isPrefixOf] at h
          | cons r rest' =>
            have hr : r ≠ 'P' := fun he => hrest (by rw [← he]; exact List.mem_cons_self r rest')
            rw [ppdPrefix_false r rest' hr] at h
            simp at h
        simp only [rule3Fuel, hd, hcnot, if_false]
        exact congrArg (c :: ·) (ih rest hrest)

theorem matchOt_none_of_head (c : Char) (rest : List Char) (hc : c.isDigit = false) :
    matchOt (c :: rest) = none := by
  unfold matchOt
  simp [List.takeWhile_cons, hc]

theorem rule4Fuel_id_no_digit :
    ∀ (fuel : Nat) (prevw : Bool) (l : List Char),
      (∀ x ∈ l, x.isDigit = false) → rule4Fuel fuel prevw l = l := by
  intro fuel
  induction fuel with
  | zero => intro _ l _; rfl
  | succ n ih =>
    intro prevw l hdig
    cases l with
    | nil => rfl
    | cons c rest =>
      have hrest : ∀ x ∈ rest, x.isDigit = false :=
        fun x hx => hdig x (List.mem_cons_of_mem c hx)
      have hm : matchOt (c :: rest) = none :=
        matchOt_none_of_head c rest (hdig c (List.mem_cons_self c rest))
      cases hp : prevw with
      | true =>
        simp only [rule4Fuel]
        exact congrArg (c :: ·) (ih (isWordChar c) rest hrest)
      | false =>
        simp only [rule4Fuel, hp, hm]
        exact congrArg (c :: ·) (ih (isWordChar c) rest hrest)

theorem rule5Fuel_id_no_nl :
    ∀ (fuel : Nat) (l : List Char), '\n' ∉ l → rule5Fuel fuel l = l := by
  intro fuel
  induction fuel with
  | zero => intro l _; rfl
  | succ n ih =>
    intro l hn
    cases l with
    | nil => rfl
    | cons c rest =>
      have hc : c ≠ '\n' := fun h => hn (by rw [← h]; exact List.mem_cons_self c rest)
      have hrest : '\n' ∉ rest := fun h => hn (List.mem_cons_of_mem c h)
      have hcnot : ¬ ((c == '\n'
          && 3 ≤ ((c :: rest).takeWhile isPySpace).count '\n') = true) := by
        intro h
        rw [beq_false_of_ne hc] at h
        simp at h
      simp only [rule5Fuel, hcnot, if_false]
      exact congrArg (c :: ·) (ih rest hrest)

theorem rule6Fuel_id_no_space :
    ∀ (fuel : Nat) (l : List Char), ' ' ∉ l → rule6Fuel fuel l = l := by
  intro fuel
  induction fuel with
  | zero => intro l _; rfl
  | succ n ih =>
    intro l hs
    cases l with
    | nil => rfl
    | cons c rest =>
      have hc : c ≠ ' ' := fun h => hs (by rw [← h]; exact List.mem_cons_self c rest)
      have hrest : ' ' ∉ rest := fun h => hs (List.mem_cons_of_mem c h)
      have hcnot : ¬ ((c == ' '
          && 3 ≤ ((c :: rest).takeWhile (fun x => x == ' ')).length) = true) := by
        intro h
        rw [beq_false_of_ne hc] at h
        simp at h
      simp only [rule6Fuel, hcnot, if_false]
      exact congrArg (c :: ·) (ih rest hrest)

/-! ### Parametric whitespace-run collapsing -/

theorem takeWhile_replicate_append (p : Char → Bool) (a : Char) (hpa : p a = true) :
    ∀ (n : Nat) (l : List Char),
      (List.replicate n a ++ l).takeWhile p = List.replicate n a ++ l.takeWhile p := by
  intro n
  induction n with
  | zero => intro l; simp
  | succ m ih =>
    intro l
    rw [List.replicate_succ, List.cons_append, List.takeWhile_cons, hpa]
    simp [ih l]

theorem spaces_takeWhile (n : Nat) :
    (List.replicate n ' ' ++ ['b']).takeWhile (fun x => x == ' ') = List.replicate n ' ' := by
  rw [takeWhile_replicate_append (fun x => x == ' ') ' ' rfl]
  rw [show (['b'] : List Char).takeWhile (fun x => x == ' ') = [] from rfl]
  simp

theorem nl_takeWhile (n : Nat) :
    (List.replicate n '\n' ++ ['b']).takeWhile isPySpace = List.replicate n '\n' := by
  rw [takeWhile_replicate_append isPySpace '\n' rfl]
  rw [show (['b'] : List Char).takeWhile isPySpace = [] from rfl]
  simp

theorem dropAfterLastNl_replicate (n : Nat) :
    dropAfterLastNl (List.replicate n '\n') = List.replicate n '\n' := by
  unfold dropAfterLastNl
  cases n with
  | zero => rfl
  | succ m =>
    rw [List.reverse_replicate]
    rw [show List.replicate (m + 1) '\n' = '\n' :: List.replicate m '\n' from rfl]
    rw [List.dropWhile_cons]
    simp [List.reverse_replicate]
    rw [← List.replicate_succ']
    rfl

theorem rule6Fuel_skip (fuel : Nat) (c : Char) (rest : List Char)
    (h : ¬ ((c == ' ' && 3 ≤ ((c :: rest).takeWhile (fun x => x == ' ')).length) = true)) :
    rule6Fuel (fuel + 1) (c :: rest) = c :: rule6Fuel fuel rest := by
  simp [rule6Fuel, h]

theorem rule6Fuel_match (fuel : Nat) (c : Char) (rest : List Char)
    (h : (c == ' ' && 3 ≤ ((c :: rest).takeWhile (fun x => x == ' ')).length) = true) :
    rule6Fuel (fuel + 1) (c :: rest) =
      ' ' :: ' ' :: rule6Fuel fuel
        ((c :: rest).drop ((c :: rest).takeWhile (fun x => x == ' ')).length) := by
  simp only [rule6Fuel, h, if_true]

theorem rule5Fuel_skip (fuel : Nat) (c : Char) (rest : List Char)
    (h : ¬ ((c == '\n' && 3 ≤ ((c :: rest).takeWhile isPySpace).count '\n') = true)) :
    rule5Fuel (fuel + 1) (c :: rest) = c :: rule5Fuel fuel rest := by
  simp [rule5Fuel, h]

theorem rule5Fuel_match (fuel : Nat) (c : Char) (rest : List Char)
    (h : (c == '\n' && 3 ≤ ((c :: rest).takeWhile isPySpace).count '\n') = true) :
    rule5Fuel (fuel + 1) (c :: rest) =
      '\n' :: '\n' :: rule5Fuel fuel
        ((c :: rest).drop (dropAfterLastNl ((c :: rest).takeWhile isPySpace)).length) := by
  simp only [rule5Fuel, h, if_true]

theorem rule6Fuel_singleton_b : ∀ fuel : Nat, rule6Fuel fuel ['b'] = ['b'] := by
  intro fuel
  cases fuel with
  | zero => rfl
  | succ g =>
    rw [show rule6Fuel (g + 1) ['b'] = 'b' :: rule6Fuel g [] from rfl]
    cases g <;> rfl

theorem rule5Fuel_singleton_b : ∀ fuel : Nat, rule5Fuel fuel ['b'] = ['b'] := by
  intro fuel
  cases fuel with
  | zero => rfl
  | succ g =>
    rw [show rule5Fuel (g + 1) ['b'] = 'b' :: rule5Fuel g [] from rfl]
    cases g <;> rfl

theorem rule6_collapse_run (n : Nat) :
    rule6 ('a' :: (List.replicate (n + 3) ' ' ++ ['b'])) = 'a' :: ' ' :: ' ' :: ['b'] := by
  unfold rule6
  have hlen : ('a' :: (List.replicate (n + 3) ' ' ++ ['b'])).length = (n + 4) + 1 := by
    simp
  rw [hlen]
  have hc1 : ¬ (('a' == ' '
      && 3 ≤ (('a' :: (List.replicate (n + 3) ' ' ++ ['b'])).takeWhile
          (fun x => x == ' ')).length) = true) := by
    intro h
    rw [show (('a' : Char) == ' ') = false from rfl] at h
    simp at h
  rw [rule6Fuel_skip (n + 4) 'a' _ hc1]
  rw [show List.replicate (n + 3) ' ' = ' ' :: List.replicate (n + 2) ' ' from rfl,
      List.cons_append]
  have hrun : ((' ' :: (List.replicate (n + 2) ' ' ++ ['b'])).takeWhile
      (fun x => x == ' ')) = ' ' :: List.replicate (n + 2) ' ' := by
    rw [show (' ' :: (List.replicate (n + 2) ' ' ++ ['b']))
        = List.replicate (n + 3) ' ' ++ ['b'] from rfl]
    rw [spaces_takeWhile (n + 3)]
    rfl
  have hc2 : ((' ' == ' '
      && 3 ≤ ((' ' :: (List.replicate (n + 2) ' ' ++ ['b'])).takeWhile
          (fun x => x == ' ')).length) = true) := by
    rw [hrun]
    simp
  rw [show n + 4 = (n + 3) + 1 from rfl]
  rw [rule6Fuel_match (n + 3) ' ' _ hc2]
  rw [hrun]
  rw [show (' ' :: List.replicate (n + 2) ' ').length = n + 3 from by simp]
  have hdrop : (' ' :: (List.replicate (n + 2) ' ' ++ ['b'])).drop (n + 3) = ['b'] := by
    rw [show (' ' :: (List.replicate (n + 2) ' ' ++ ['b']))
        = List.replicate (n + 3) ' ' ++ ['b'] from rfl]
    simp
  rw [hdrop, rule6Fuel_singleton_b]

theorem rule5_collapse_run (n : Nat) :
    rule5 ('a' :: (List.replicate (n + 3) '\n' ++ ['b'])) = 'a' :: '\n' :: '\n' :: ['b'] := by
  unfold rule5
  have hlen : ('a' :: (List.replicate (n + 3) '\n' ++ ['b'])).length = (n + 4) + 1 := by
    simp
  rw [hlen]
  have hc1 : ¬ (('a' == '\n'
      && 3 ≤ (('a' :: (List.replicate (n + 3) '\n' ++ ['b'])).takeWhile
          isPySpace).count '\n') = true) := by
    intro h
    rw [show (('a' : Char) == '\n') = false from rfl] at h
    simp at h
  rw [rule5Fuel_skip (n + 4) 'a' _ hc1]
  rw [show List.replicate (n + 3) '\n' = '\n' :: List.replicate (n + 2) '\n' from rfl,
      List.cons_append]
  have hrun : (('\n' :: (List.replicate (n + 2) '\n' ++ ['b'])).takeWhile isPySpace)
      = '\n' :: List.replicate (n + 2) '\n' := by
    rw [show ('\n' :: (List.replicate (n + 2) '\n' ++ ['b']))
        = List.replicate (n + 3) '\n' ++ ['b'] from rfl]
    rw [nl_takeWhile (n + 3)]
    rfl
  have hc2 : (('\n' == '\n'
      && 3 ≤ (('\n' :: (List.replicate (n + 2) '\n' ++ ['b'])).takeWhile
          isPySpace).count '\n') = true) := by
    rw [hrun]
    rw [show ('\n' :: List.replicate (n + 2) '\n') = List.replicate (n + 3) '\n' from rfl]
    rw [List.count_replicate_self]
    simp
  rw [show n + 4 = (n + 3) + 1 from rfl]
  rw [rule5Fuel_match (n + 3) '\n' _ hc2]
  rw [hrun]
  rw [show ('\n' :: List.replicate (n + 2) '\n') = List.replicate (n + 3) '\n' from rfl]
  rw [dropAfterLastNl_replicate (n + 3)]
  rw [show (List.replicate (n + 3) '\n').length = n + 3 from by simp]
  have hdrop : ('\n' :: (List.replicate (n + 2) '\n' ++ ['b'])).drop (n + 3) = ['b'] := by
    rw [show ('\n' :: (List.replicate (n + 2) '\n' ++ ['b']))
        = List.replicate (n + 3) '\n' ++ ['b'] from rfl]
    simp
  rw [hdrop, rule5Fuel_singleton_b]

theorem clean_spaces_run (n : Nat) :
    clean_pdf_artifacts ⟨'a' :: (List.replicate (n + 3) ' ' ++ ['b'])⟩ = "a  b" := by
  have hmem : ∀ x ∈ ('a' :: (List.replicate (n + 3) ' ' ++ ['b'])),
      x = 'a' ∨ x = ' ' ∨ x = 'b' := by
    intro x hx
    rcases List.mem_cons.mp hx with h1 | h2
    · exact Or.inl h1
    rcases List.mem_append.mp h2 with h3 | h4
    · exact Or.inr (Or.inl (List.eq_of_mem_replicate h3))
    · exact Or.inr (Or.inr (List.mem_singleton.mp h4))
  have hP : 'P' ∉ ('a' :: (List.replicate (n + 3) ' ' ++ ['b'])) := by
    intro hx
    rcases hmem 'P' hx with h | h | h <;> exact absurd h (by decide)
  have hdig : ∀ x ∈ ('a' :: (List.replicate (n + 3) ' ' ++ ['b'])), x.isDigit = false := by
    intro x hx
    rcases hmem x hx with h | h | h <;> subst h <;> rfl
  have hnl : '\n' ∉ ('a' :: (List.replicate (n + 3) ' ' ++ ['b'])) := by
    intro hx
    rcases hmem '\n' hx with h | h | h <;> exact absurd h (by decide)
  unfold clean_pdf_artifacts
  rw [show (⟨'a' :: (List.replicate (n + 3) ' ' ++ ['b'])⟩ : String).data
      = 'a' :: (List.replicate (n + 3) ' ' ++ ['b']) from rfl]
  have e1 : rule1 ('a' :: (List.replicate (n + 3) ' ' ++ ['b']))
      = 'a' :: (List.replicate (n + 3) ' ' ++ ['b']) := rule1Fuel_id_no_P _ _ _ hP
  have e2 : rule2 ('a' :: (List.replicate (n + 3) ' ' ++ ['b']))
      = 'a' :: (List.replicate (n + 3) ' ' ++ ['b']) := rule2Fuel_id_no_P _ _ _ hP
  have e3 : rule3 ('a' :: (List.replicate (n + 3) ' ' ++ ['b']))
      = 'a' :: (List.replicate (n + 3) ' ' ++ ['b']) := rule3Fuel_id_no_P _ _ hP
  have e4 : rule4 ('a' :: (List.replicate (n + 3) ' ' ++ ['b']))
      = 'a' :: (List.replicate (n + 3) ' ' ++ ['b']) := rule4Fuel_id_no_digit _ _ _ hdig
  have e5 : rule5 ('a' :: (List.replicate (n + 3) ' ' ++ ['b']))
      = 'a' :: (List.replicate (n + 3) ' ' ++ ['b']) := rule5Fuel_id_no_nl _ _ hnl
  rw [e1, e2, e3, e4, e5, rule6_collapse_run n]

theorem clean_nl_run (n : Nat) :
    clean_pdf_artifacts ⟨'a' :: (List.replicate (n + 3) '\n' ++ ['b'])⟩ = "a\n\nb" := by
  have hmem : ∀ x ∈ ('a' :: (List.replicate (n + 3) '\n' ++ ['b'])),
      x = 'a' ∨ x = '\n' ∨ x = 'b' := by
    intro x hx
    rcases List.mem_cons.mp hx with h1 | h2
    · exact Or.inl h1
    rcases List.mem_append.mp h2 with h3 | h4
    · exact Or.inr (Or.inl (List.eq_of_mem_replicate h3))
    · exact Or.inr (Or.inr (List.mem_singleton.mp h4))
  have hP : 'P' ∉ ('a' :: (List.replicate (n + 3) '\n' ++ ['b'])) := by
    intro hx
    rcases hmem 'P' hx with h | h | h <;> exact absurd h (by decide)
  have hdig : ∀ x ∈ ('a' :: (List.replicate (n + 3) '\n' ++ ['b'])), x.isDigit = false := by
    intro x hx
    rcases hmem x hx with h | h | h <;> subst h <;> rfl
  unfold clean_pdf_artifacts
  rw [show (⟨'a' :: (List.replicate (n + 3) '\n' ++ ['b'])⟩ : String).data
      = 'a' :: (List.replicate (n + 3) '\n' ++ ['b']) from rfl]
  have e1 : rule1 ('a' :: (List.replicate (n + 3) '\n' ++ ['b']))
      = 'a' :: (List.replicate (n + 3) '\n' ++ ['b']) := rule1Fuel_id_no_P _ _ _ hP
  have e2 : rule2 ('a' :: (List.replicate (n + 3) '\n' ++ ['b']))
      = 'a' :: (List.replicate (n + 3) '\n' ++ ['b']) := rule2Fuel_id_no_P _ _ _ hP
  have e3 : rule3 ('a' :: (List.replicate (n + 3) '\n' ++ ['b']))
      = 'a' :: (List.replicate (n + 3) '\n' ++ ['b']) := rule3Fuel_id_no_P _ _ hP
  have e4 : rule4 ('a' :: (List.replicate (n + 3) '\n' ++ ['b']))
      = 'a' :: (List.replicate (n + 3) '\n' ++ ['b']) := rule4Fuel_id_no_digit _ _ _ hdig
  have e6 : rule6 ('a' :: '\n' :: '\n' :: ['b']) = 'a' :: '\n' :: '\n' :: ['b'] :=
    rule6Fuel_id_no_space _ _ (by decide)
  rw [e1, e2, e3, e4, rule5_collapse_run n, e6]

/-! ### Claim theorems -/

/-- C1, counterexample: the pipeline is not idempotent.  On the input
`"6 ot 2 ot 3"` one application yields `"6 to 2 ot 3"` (the two `N ot M`
matches overlap at the `2`, so only the first is rewritten), and a second
application rewrites the remaining `2 ot 3`, so normalize ∘ normalize differs
from normalize at this input. -/
theorem claim_C1_counterexample :
    normalize (normalize "6 ot 2 ot 3") ≠ normalize "6 ot 2 ot 3" := by
  decide

/-- C1, amended: the pipeline is idempotent on every input string whose
normalized output contains no further match of any stage: no CID-table
token, no mirror-table whole-word match, and no match of any of the six
artifact rules. -/
theorem claim_C1_amended (s : String)
    (hd : ∀ kv ∈ cid_mappings, occCount kv.1.data (normalize s).data = 0)
    (hf : ∀ kv ∈ reversed_patterns, subWordCount kv.1.data (normalize s).data = 0)
    (h1 : rule1Count (normalize s).data = 0) (h2 : rule2Count (normalize s).data = 0)
    (h3 : rule3Count (normalize s).data = 0) (h4 : rule4Count (normalize s).data = 0)
    (h5 : rule5Count (normalize s).data = 0) (h6 : rule6Count (normalize s).data = 0) :
    normalize (normalize s) = normalize s := by
  have ed : decode_cid_codes (normalize s) = normalize s :=
    decode_id_of_no_token _ hd
  have ef : fix_reversed_text (normalize s) = normalize s :=
    fix_id_of_no_match _ hf
  show clean_pdf_artifacts (fix_reversed_text (decode_cid_codes (normalize s))) = normalize s
  rw [ed, ef]
  exact clean_id_of_no_matches _ h1 h2 h3 h4 h5 h6

/-- C1, witness for the amended theorem at the concrete input `"ab"`. -/
theorem claim_C1_amended_witness : normalize (normalize "ab") = normalize "ab" :=
  claim_C1_amended "ab" (by decide) (by decide) (by decide) (by decide) (by decide)
    (by decide) (by decide) (by decide)

/-- C2, counterexample: the result of mirror correction does depend on the
iteration order over the table entries.  The table contains the two
case-insensitively identical keys `gnineercS` (first, value `Screening`) and
`gnineercs` (later, value `screening`); iterating the reversed table maps
`"gnineercs"` to `"screening"` whereas the source order maps it to
`"Screening"`. -/
theorem claim_C2_counterexample :
    List.Perm reversed_patterns.reverse reversed_patterns ∧
    String.mk (fixWithTable reversed_patterns.reverse "gnineercs".data)
      ≠ fix_reversed_text "gnineercs" :=
  ⟨List.reverse_perm _, by decide⟩

/-- C2, amended: iteration order can matter because two table entries
(`gnineercS` and `gnineercs`) match the same text case-insensitively; for
such overlapping entries the first-defined entry in the table's stable
iteration order determines the replacement: the source order yields the
first entry's canonical value `Screening`, while the reversed order would
yield `screening`. -/
theorem claim_C2_amended :
    fix_reversed_text "gnineercs" = "Screening" ∧
    String.mk (fixWithTable reversed_patterns.reverse "gnineercs".data) = "screening" := by
  exact ⟨by decide, by decide⟩

/-- C3: the glyph-code decoder maps `"(cid:3)(cid:36)"` to `" A"`, its
output is never longer than its input (every table value is at most as long
as its key), and a string containing no occurrence of any known table key is
returned unchanged (unknown code-tokens pass through literally). -/
theorem claim_C3 :
    decode_cid_codes "(cid:3)(cid:36)" = " A"
    ∧ (∀ s : String, (decode_cid_codes s).length ≤ s.length)
    ∧ (∀ s : String, (∀ kv ∈ cid_mappings, occCount kv.1.data s.data = 0) →
        decode_cid_codes s = s) := by
  refine ⟨by decide, ?_, ?_⟩
  · intro s
    have h : ∀ kv ∈ cid_mappings, kv.2.data.length ≤ kv.1.data.length := by decide
    have h1 : decode_cid_codes s = String.mk (decodeList s.data) := rfl
    have hmk : ∀ l : List Char, (String.mk l).length = l.length := fun l => rfl
    have hsl : ∀ t : String, t.length = t.data.length := fun t => rfl
    have h2 : ∀ l : List Char, decodeList l
        = cid_mappings.foldl (fun t kv => replaceList kv.1.data kv.2.data t) l := fun l => rfl
    rw [h1, hmk, hsl s, h2]
    exact foldl_replace_length_le cid_mappings s.data h
  · intro s h
    exact decode_id_of_no_token s h

/-- C3, witness: the unknown code-token `"(cid:999)"` passes through
literally (it contains no known table key). -/
theorem claim_C3_witness : decode_cid_codes "(cid:999)" = "(cid:999)" :=
  claim_C3.2.2 "(cid:999)" (by decide)

/-- C4: mirror correction rewrites the spec's example sentence, matches
case-insensitively while emitting the table's canonical casing
(`TUOHSAW` becomes `Washout`), leaves reversed tokens embedded in longer
words untouched (`XtuohsaW`, `tuohsaWy`), and is the identity on any string
with no whole-word case-insensitive occurrence of a table key. -/
theorem claim_C4 :
    fix_reversed_text "The tuohsaW doireP was long." = "The Washout Period was long."
    ∧ fix_reversed_text "XtuohsaW tuohsaWy TUOHSAW" = "XtuohsaW tuohsaWy Washout"
    ∧ (∀ s : String, (∀ kv ∈ reversed_patterns, subWordCount kv.1.data s.data = 0) →
        fix_reversed_text s = s) := by
  refine ⟨by decide, by decide, ?_⟩
  intro s h
  exact fix_id_of_no_match s h

/-- C4, witness: a reversed token occurring only as a substring of a longer
word produces no whole-word match, so the string is unchanged. -/
theorem claim_C4_witness : fix_reversed_text "XtuohsaW" = "XtuohsaW" :=
  claim_C4.2.2 "XtuohsaW" (by decide)

/-- C5: on a string with no recognized tokens (no CID-table key occurrence,
no mirror-table whole-word match, no match of the three PPD artifact rules,
no digit-ot-digit match) the pipeline only collapses whitespace (rules 5
and 6) and all diagnostic counts (tokens decoded, words corrected, artifacts
removed) are zero. -/
theorem claim_C5 (s : String)
    (hd : ∀ kv ∈ cid_mappings, occCount kv.1.data s.data = 0)
    (hf : ∀ kv ∈ reversed_patterns, subWordCount kv.1.data s.data = 0)
    (h1 : rule1Count s.data = 0) (h2 : rule2Count s.data = 0)
    (h3 : rule3Count s.data = 0) (h4 : rule4Count s.data = 0) :
    normalize s = collapse_whitespace s
    ∧ decodedCount s = 0
    ∧ correctedCount (decode_cid_codes s) = 0
    ∧ removedCount (fix_reversed_text (decode_cid_codes s)) = 0 := by
  have ed : decode_cid_codes s = s := decode_id_of_no_token s hd
  have ef : fix_reversed_text s = s := fix_id_of_no_match s hf
  refine ⟨?_, ?_, ?_, ?_⟩
  · show clean_pdf_artifacts (fix_reversed_text (decode_cid_codes s)) = _
    rw [ed, ef]
    exact clean_eq_collapse_of_no_artifacts s h1 h2 h3 h4
  · unfold decodedCount
    rw [foldl_replace_pair cid_mappings s.data 0 hd]
  · rw [ed]
    unfold correctedCount
    rw [foldl_subWord_pair reversed_patterns s.data 0 hf]
  · rw [ed, ef]
    unfold removedCount
    have e1 : rule1 s.data = s.data := rule1Fuel_id _ _ _ h1
    have e2 : rule2 s.data = s.data := rule2Fuel_id _ _ _ h2
    rw [e1, e2, h1, h2, h3]

/-- C5, witness at the concrete input `"a  b"` (no recognized tokens; the
double space is below the collapsing threshold). -/
theorem claim_C5_witness :
    normalize "a  b" = collapse_whitespace "a  b"
    ∧ decodedCount "a  b" = 0
    ∧ correctedCount (decode_cid_codes "a  b") = 0
    ∧ removedCount (fix_reversed_text (decode_cid_codes "a  b")) = 0 :=
  claim_C5 "a  b" (by decide) (by decide) (by decide) (by decide) (by decide) (by decide)

/-- C6: the numeric-pattern repair of the artifact cleaner turns a
whole-word digit-ot-digit sequence into digit-to-digit, and the full
pipeline maps `"from 6 ot 2 weeks"` to `"from 6 to 2 weeks"`. -/
theorem claim_C6 :
    clean_pdf_artifacts "6 ot 2" = "6 to 2"
    ∧ normalize "from 6 ot 2 weeks" = "from 6 to 2 weeks" := by
  exact ⟨by decide, by decide⟩

/-- C7, counterexample: the artifact cleaner does not always leave embedded
`PPD` occurrences untouched.  In `"x PPD PPDterm"` the doubled-PPD rule
(which has no trailing word boundary) consumes the `PPD` prefix of
`PPDterm`, yielding `"x term"` instead of the `"x PPDterm"` that removing
only the isolated occurrence would give. -/
theorem claim_C7_counterexample :
    clean_pdf_artifacts "x PPD PPDterm" = "x term"
    ∧ clean_pdf_artifacts "x PPD PPDterm" ≠ "x PPDterm" := by
  exact ⟨by decide, by decide⟩

/-- C7, amended: the PPD rules remove the token when isolated (alone on its
line with the following blank line, doubled, or surrounded by whitespace)
and leave it untouched when embedded, except that an embedded occurrence
immediately following `PPD` plus whitespace is consumed by the doubled-PPD
rule. -/
theorem claim_C7_amended :
    clean_pdf_artifacts "A\n\nPPD\n\nB" = "A\n\nB"
    ∧ clean_pdf_artifacts "term PPDterm" = "term PPDterm"
    ∧ clean_pdf_artifacts "x PPD PPD y" = "x y"
    ∧ clean_pdf_artifacts "a PPD b" = "a  b"
    ∧ clean_pdf_artifacts "x PPD PPDterm" = "x term" := by
  refine ⟨by decide, by decide, by decide, by decide, by decide⟩

/-- C8: whitespace normalization collapses any run of three or more
newlines between words to exactly two newlines (one blank line) and any run
of three or more spaces to exactly two spaces; in particular four
consecutive newlines become two and five consecutive spaces become two. -/
theorem claim_C8 :
    (∀ n : Nat, clean_pdf_artifacts ⟨'a' :: (List.replicate (n + 3) '\n' ++ ['b'])⟩ = "a\n\nb")
    ∧ (∀ n : Nat, clean_pdf_artifacts ⟨'a' :: (List.replicate (n + 3) ' ' ++ ['b'])⟩ = "a  b")
    ∧ clean_pdf_artifacts "a\n\n\n\nb" = "a\n\nb"
    ∧ clean_pdf_artifacts "a     b" = "a  b" := by
  refine ⟨clean_nl_run, clean_spaces_run, by decide, by decide⟩

/-- C9: every stage and their composition is a total function in this
embedding (each is defined by structural recursion, so totality holds by
construction and no exception can be modelled to escape), and the pipeline
maps the empty string to the empty string, stage by stage. -/
theorem claim_C9 :
    decode_cid_codes "" = "" ∧ fix_reversed_text "" = ""
    ∧ clean_pdf_artifacts "" = "" ∧ normalize "" = "" := by
  exact ⟨by decide, by decide, by decide, by decide⟩

/-- C10: Python dict semantics make the later literal entry win, so the
effective table maps `(cid:59)` only to `";"`; decoding `"(cid:59)"` yields
`";"`, and no replacement ever introduces the character `X` (the count of
`X` never increases), so a `(cid:59)` token never decodes to `X`. -/
theorem claim_C10 :
    decode_cid_codes "(cid:59)" = ";"
    ∧ cid_mappings.filter (fun kv => kv.1 == "(cid:59)") = [("(cid:59)", ";")]
    ∧ (∀ s : String, (decode_cid_codes s).data.count 'X' ≤ s.data.count 'X') := by
  refine ⟨by decide, by decide, ?_⟩
  intro s
  have h : ∀ kv ∈ cid_mappings, kv.2.data.count 'X' = 0 := by decide
  have h1 : decode_cid_codes s = String.mk (decodeList s.data) := rfl
  have hmk : ∀ l : List Char, (String.mk l).data = l := fun l => rfl
  have h2 : ∀ l : List Char, decodeList l
      = cid_mappings.foldl (fun t kv => replaceList kv.1.data kv.2.data t) l := fun l => rfl
  rw [h1, hmk, h2]
  exact foldl_replace_count_le cid_mappings 'X' s.data h

end TrialSage
